import Mathlib

/-!
# Verification of the `sharding` package of `gnbutils`

This file shallowly embeds the shard-routing engine of the repository
(`src/sharding/algorithms.go`, `calculator.go`, `manager.go`,
`integration_example.go` and the wrapper/table-config files) into Lean 4
and proves, or refutes, the frozen claims about it.

Modelling conventions:
* Go's machine integers are modelled as `Int` with explicit wrapping
  (`wrap32`, re-interpreting a value modulo `2^32` into the signed
  `int32` range).  Go's `int`/`int64` are 64-bit; arithmetic on them in
  this code never overflows, so no `2^64` wrap is needed at the points
  where they are used.
* Go's `%` on integers is truncated-division remainder: the result has
  the sign of the dividend and magnitude `|a| mod |b|` (`goRem` below).
  Integer division by zero is a Go run-time panic; fallible functions
  are modelled in `Except String`, and the panic is modelled as an
  `.error` result (a panic is in particular not a normal error-free
  return).
* Go strings are modelled as Lean `String`s; `for _, c := range s`
  iterates Unicode code points, i.e. `s.data`.  Byte-level substring
  search of the all-ASCII pattern `{db_index}` in valid UTF-8 coincides
  with code-point-level search, so the replacement loops are modelled
  on `List Char`.
-/

namespace GnbSharding

/-- Reinterpret an integer as a signed 32-bit value (Go conversion
`int32(x)`): reduce modulo `2^32` into `[-2^31, 2^31)`. -/
def wrap32 (x : Int) : Int :=
  (x + 2 ^ 31) % 2 ^ 32 - 2 ^ 31

/-- Go's `%` on signed integers: truncated-division remainder.  The
result takes the sign of the dividend `a` and has magnitude
`|a| mod |b|`.  (`goRem a 0` is never used: division by zero panics and
is modelled as an error at each call site.) -/
def goRem (a b : Int) : Int :=
  if 0 ≤ a then ((a.natAbs % b.natAbs : Nat) : Int)
  else -((a.natAbs % b.natAbs : Nat) : Int)

/-- `hashCode & 0x7FFFFFFF` on an `int32` value held in `[-2^31, 2^31)`:
masking off the sign bit of the two's-complement representation is
reduction modulo `2^31`. -/
def mask31 (x : Int) : Int :=
  x % 2 ^ 31

/-- `stringHashCode` (algorithms.go): Java-style `String.hashCode`,
`hash = hash*31 + c` over the code points of `s` with `int32`
wraparound, starting from 0. -/
def stringHashCode (s : String) : Int :=
  s.data.foldl (fun hash c => wrap32 (hash * 31 + (c.toNat : Int))) 0

/-- A Go sharding-key value (`interface{}`), restricted to the shapes
the algorithms inspect.  `vInt` carries the key's value as the Go
`int64` the source converts every accepted integer type to; `vList`
carries a `[]string` (a `[]interface{}` arrives with its elements
already `%v`-rendered); `vMap` carries a `map[string]interface{}` as an
association list in iteration order, values already `%v`-rendered. -/
inductive GoValue where
  | vInt (n : Int)
  | vStr (s : String)
  | vList (l : List String)
  | vMap (m : List (String × String))
  deriving DecidableEq, Repr

/-- Accumulator pass producing the decimal digits of `n` in front of
`acc`; `n / 10` strictly shrinks, so any fuel above the digit count
(in particular `n + 1`) reaches the base case. -/
def natDigitsCore : Nat → Nat → List Char → List Char
  | 0, _, acc => acc
  | fuel + 1, n, acc =>
      if n < 10 then Char.ofNat (48 + n) :: acc
      else natDigitsCore fuel (n / 10) (Char.ofNat (48 + n % 10) :: acc)

/-- Decimal digits of a natural number, as `fmt.Sprintf("%d", ·)`
produces them. -/
def natDigits (n : Nat) : List Char :=
  natDigitsCore (n + 1) n []

/-- `fmt.Sprintf("%d", x)` for a Go integer. -/
def goIntToString (x : Int) : String :=
  if x < 0 then ⟨'-' :: natDigits x.natAbs⟩ else ⟨natDigits x.natAbs⟩

/-- `strconv.ParseInt(v, 10, 64)`: optional sign, one or more decimal
digits, value within the `int64` range; `none` models the error
return. -/
def parseInt64 (s : String) : Option Int :=
  let core (ds : List Char) (sign : Int) : Option Int :=
    if ds = [] then none
    else if ds.all (fun c => '0' ≤ c ∧ c ≤ '9') then
      let v : Nat := ds.foldl (fun acc c => acc * 10 + (c.toNat - 48)) 0
      let x : Int := sign * (v : Int)
      if -(2 ^ 63) ≤ x ∧ x < 2 ^ 63 then some x else none
    else none
  match s.data with
  | '-' :: ds => core ds (-1)
  | '+' :: ds => core ds 1
  | ds => core ds 1

/-- `LongShardingAlgorithm.CalculateShardIndex` (algorithms.go):
convert the value to `int64` (strings via `strconv.ParseInt`), take
`id % shardCount` and negate if negative.  List- and map-shaped values
hit the `default` branch and are rejected. -/
def longCalculateShardIndex (shardingValue : GoValue) (shardCount : Int) :
    Except String Int :=
  let run (id : Int) : Except String Int :=
    if shardCount = 0 then .error "runtime error: integer divide by zero"
    else
      let tableIndex := goRem id shardCount
      .ok (if tableIndex < 0 then -tableIndex else tableIndex)
  match shardingValue with
  | .vInt id => run id
  | .vStr s =>
      match parseInt64 s with
      | some id => run id
      | none => .error "cannot convert string to int64"
  | _ => .error "unsupported type for LongShardingAlgorithm"

/-- `fmt.Sprintf("%v", v)` for the value shapes of `GoValue`:
an `int64` renders as its decimal form, a string as itself, a slice as
its space-separated elements in brackets, a map as `map[k:v ...]` with
the keys in sorted order (Go's `fmt` prints maps in key order). -/
def goRender (v : GoValue) : String :=
  match v with
  | .vInt n => goIntToString n
  | .vStr s => s
  | .vList l => "[" ++ String.intercalate " " l ++ "]"
  | .vMap m =>
      "map[" ++
        String.intercalate " "
          ((m.map (fun p => p.1 ++ ":" ++ p.2)).mergeSort (· ≤ ·)) ++ "]"

/-- `StringShardingAlgorithm.CalculateShardIndex` (algorithms.go):
`(stringHashCode(column) & 0x7FFFFFFF) % int32(shardCount)`, where a
non-string value is first rendered with `fmt.Sprintf("%v", ·)`. -/
def stringCalculateShardIndex (shardingValue : GoValue) (shardCount : Int) :
    Except String Int :=
  let column : String :=
    match shardingValue with
    | .vStr s => s
    | v => goRender v
  let hashCode := stringHashCode column
  let divisor := wrap32 shardCount
  if divisor = 0 then .error "runtime error: integer divide by zero"
  else .ok (goRem (mask31 hashCode) divisor)

/-- Inner loop of the key sort in
`MultiStringShardingAlgorithm.CalculateShardIndex` (algorithms.go):
for fixed `i`, `for j := i+1; ...; if keys[i] > keys[j] { swap }`.
`selMin x ys` carries the current value of `keys[i]` through the scan
of `keys[i+1..]` and returns the final `keys[i]` together with the
final contents of `keys[i+1..]` (the displaced values left in place by
the swaps). -/
def selMin (x : String) : List String → String × List String
  | [] => (x, [])
  | y :: ys =>
      if y < x then ((selMin y ys).1, x :: (selMin y ys).2)
      else ((selMin x ys).1, y :: (selMin x ys).2)

theorem selMin_length_snd (x : String) (l : List String) :
    (selMin x l).2.length = l.length := by
  induction l generalizing x with
  | nil => simp [selMin]
  | cons y ys ih =>
      by_cases h : y < x <;> simp [selMin, h, ih]

/-- The full nested-loop sort of the map keys in
`MultiStringShardingAlgorithm.CalculateShardIndex`: a selection sort
in ascending order. -/
def selSort : List String → List String
  | [] => []
  | x :: xs => (selMin x xs).1 :: selSort (selMin x xs).2
  termination_by l => l.length
  decreasing_by simp [selMin_length_snd]

/-- Lookup `v[k]` in the modelled `map[string]interface{}` (the `%v`
rendering of the stored value).  For keys taken from the map itself the
default branch is unreachable. -/
def mapLookup (m : List (String × String)) (k : String) : String :=
  match m.find? (fun kv => kv.1 == k) with
  | some kv => kv.2
  | none => ""

/-- `MultiStringShardingAlgorithm.CalculateShardIndex` (algorithms.go)
with the separator `"_"` installed by `NewMultiStringShardingAlgorithm`:
collect the column values (sorting the keys of a map input), reject an
empty list, join with `"_"`, and apply the hash-mask-modulo step. -/
def multiStringCalculateShardIndex (shardingValue : GoValue)
    (shardCount : Int) : Except String Int :=
  let columnValues : List String :=
    match shardingValue with
    | .vList l => l
    | .vMap m => (selSort (m.map Prod.fst)).map (mapLookup m)
    | v => [goRender v]
  if columnValues = [] then
    .error "empty column values for multi-string sharding"
  else
    let combined := String.intercalate "_" columnValues
    let hashCode := stringHashCode combined
    let divisor := wrap32 shardCount
    if divisor = 0 then .error "runtime error: integer divide by zero"
    else .ok (goRem (mask31 hashCode) divisor)

/-! ### The placeholder-replacement loops

`ShardCalculator.CalculateDatabaseName` (calculator.go) and
`CalculateShardForTable` (integration_example.go) replace `{db_index}`
by scanning for the leftmost occurrence, splicing in the decimal index,
and rescanning from the start until no occurrence is left.  The loop is
modelled with explicit fuel; `matchCount` strictly decreases per
iteration (proved below), so fuel `length + 1` reaches the loop's fixed
point. -/

/-- Leftmost position at which `pat` occurs in `l`, exactly as the
index scan `for i := 0; i <= len(result)-len(placeholder); i++`
finds it. -/
def findSub (l pat : List Char) : Option Nat :=
  if pat.isPrefixOf l then some 0
  else
    match l with
    | [] => none
    | _ :: t => (findSub t pat).map (· + 1)

/-- Number of positions of `l` at which `pat` occurs. -/
def matchCount (pat : List Char) : List Char → Nat
  | [] => if pat.isPrefixOf ([] : List Char) then 1 else 0
  | c :: t => (if pat.isPrefixOf (c :: t) then 1 else 0) + matchCount pat t

/-- One replacement step `result[:idx] + rep + result[idx+len(pat):]`. -/
def replaceAt (l pat rep : List Char) (i : Nat) : List Char :=
  l.take i ++ rep ++ l.drop (i + pat.length)

/-- The unbounded `for {}` replacement loop, with explicit fuel. -/
def replaceLoop (pat rep : List Char) : Nat → List Char → List Char
  | 0, l => l
  | fuel + 1, l =>
      match findSub l pat with
      | none => l
      | some i => replaceLoop pat rep fuel (replaceAt l pat rep i)

/-- The placeholder replacement of `CalculateDatabaseName` /
`CalculateShardForTable` on Go strings (the all-ASCII pattern makes the
byte-level scan of the source coincide with this code-point-level
scan). -/
def replacePlaceholderAll (s pat rep : String) : String :=
  ⟨replaceLoop pat.data rep.data (s.data.length + 1) s.data⟩

/-! ### The shard calculator (calculator.go) -/

/-- The computed result `ShardInfo` (calculator.go). -/
structure ShardInfo where
  DatabaseIndex : Int
  TableIndex : Int
  DatabaseName : String
  TableName : String
  deriving DecidableEq, Repr

/-- The three implementations behind the `ShardingAlgorithm`
interface (algorithms.go). -/
inductive Alg where
  | long
  | str
  | multi
  deriving DecidableEq, Repr

/-- Dynamic dispatch of `CalculateShardIndex` through the
`ShardingAlgorithm` interface. -/
def calcShardIndex : Alg → GoValue → Int → Except String Int
  | .long, v, n => longCalculateShardIndex v n
  | .str, v, n => stringCalculateShardIndex v n
  | .multi, v, n => multiStringCalculateShardIndex v n

/-- `ShardCalculator.CalculateShard` (calculator.go): the database
index is the algorithm run against `databaseCount` and the table index
is the same algorithm independently run against `tableCountPerDB`. -/
def calculateShard (alg : Alg) (databaseCount tableCountPerDB : Int)
    (v : GoValue) : Except String (Int × Int) :=
  match calcShardIndex alg v databaseCount with
  | .error e => .error ("failed to calculate database index: " ++ e)
  | .ok dbIndex =>
      match calcShardIndex alg v tableCountPerDB with
      | .error e => .error ("failed to calculate table index: " ++ e)
      | .ok tableIndex => .ok (dbIndex, tableIndex)

/-- `ShardCalculator.CalculateTableName`: `"<original>_<tableIndex>"`. -/
def calculateTableName (alg : Alg) (databaseCount tableCountPerDB : Int)
    (originalTableName : String) (v : GoValue) : Except String String :=
  match calculateShard alg databaseCount tableCountPerDB v with
  | .error e => .error e
  | .ok p => .ok (originalTableName ++ "_" ++ goIntToString p.2)

/-- `ShardCalculator.CalculateDatabaseName`: replace every
`{db_index}` in the template by the decimal database index. -/
def calculateDatabaseName (alg : Alg) (databaseCount tableCountPerDB : Int)
    (databaseTemplate : String) (v : GoValue) : Except String String :=
  match calculateShard alg databaseCount tableCountPerDB v with
  | .error e => .error e
  | .ok p =>
      .ok (replacePlaceholderAll databaseTemplate "{db_index}"
            (goIntToString p.1))

/-- `ShardCalculator.GetShardInfo` (calculator.go): one `CalculateShard`
for the indices plus the two name helpers (each recomputing
`CalculateShard` on the same pure algorithm). -/
def getShardInfo (alg : Alg) (databaseCount tableCountPerDB : Int)
    (originalTableName databaseTemplate : String) (v : GoValue) :
    Except String ShardInfo :=
  match calculateShard alg databaseCount tableCountPerDB v with
  | .error e => .error e
  | .ok p =>
      match calculateDatabaseName alg databaseCount tableCountPerDB
          databaseTemplate v with
      | .error e => .error e
      | .ok dbName =>
          match calculateTableName alg databaseCount tableCountPerDB
              originalTableName v with
          | .error e => .error e
          | .ok tableName => .ok ⟨p.1, p.2, dbName, tableName⟩

/-! ### The sharding manager (manager.go) and its facade
(integration_example.go and the wrapper file) -/

/-- An opened `*gorm.DB` connection, identified by the DSN it was
opened with. -/
structure GoDB where
  dsn : String
  deriving DecidableEq, Repr

/-- `TableShardingConfig` (the per-table config file): `Algorithm` is
the stored `ShardingAlgorithm` interface value, `none` modelling a nil
interface. -/
structure TableShardingConfig where
  TableName : String
  ShardingKey : String
  AlgorithmType : String
  Algorithm : Option Alg
  TableCount : Int
  deriving DecidableEq, Repr

/-- `DatabaseConfig` (manager.go). -/
structure DatabaseConfig where
  Host : String
  Port : Int
  Username : String
  Password : String
  Database : String
  Charset : String
  deriving DecidableEq, Repr

/-- `ShardingConfig` (manager.go), restricted to the fields the claims
exercise.  `TableConfigs` holds the `map[string]*TableShardingConfig`
as an association list in iteration order; a `none` entry value models
a nil pointer stored under that key. -/
structure ShardingConfig where
  DatabaseCount : Int
  DatabaseTemplate : DatabaseConfig
  TableConfigs : List (String × Option TableShardingConfig)
  deriving DecidableEq, Repr

/-- Go map lookup `cfg.TableConfigs[tableName]`: `none` when the key is
absent (`exists == false`). -/
def lookupTable (cfg : ShardingConfig) (tableName : String) :
    Option (Option TableShardingConfig) :=
  (cfg.TableConfigs.find? (fun kv => kv.1 == tableName)).map Prod.snd

/-- `ShardingManager` (manager.go): the config pointer (`none` = nil),
the connection slice (`none` entries are nil `*gorm.DB` slots, as
`make` produces before the init loop fills them), and the initialized
flag. -/
structure ShardingManager where
  config : Option ShardingConfig
  databases : List (Option GoDB)
  initialized : Bool
  deriving DecidableEq, Repr

/-- One pass of `replacePlaceholder` (manager.go): scan left to right,
substituting `rep` for each occurrence of `pat` and jumping past it
(`i += len(placeholder) - 1` and the loop increment), returning the
rebuilt string and whether anything was found.  (For the nonempty
patterns used here, `t.drop (pat.length - 1)` is the source's jump past
the matched occurrence.  The source copies byte-by-byte with
`string(result[i])`, which would re-encode bytes above 0x7F; this
code-point-level model agrees with it on ASCII templates, the only
ones the judged statements evaluate it on.) -/
def replacePlaceholderPass (pat rep : List Char) :
    List Char → List Char × Bool
  | [] => ([], false)
  | c :: t =>
      if pat.isPrefixOf (c :: t) then
        (rep ++ (replacePlaceholderPass pat rep (t.drop (pat.length - 1))).1,
          true)
      else
        (c :: (replacePlaceholderPass pat rep t).1,
          (replacePlaceholderPass pat rep t).2)
  termination_by l => l.length
  decreasing_by
    all_goals simp only [List.length_drop, List.length_cons]
    all_goals omega

/-- The outer `for {}` of `replacePlaceholder` (manager.go): repeat the
pass while it found an occurrence; with fuel as for `replaceLoop`. -/
def replacePlaceholderLoop (pat rep : List Char) :
    Nat → List Char → List Char
  | 0, l => l
  | fuel + 1, l =>
      match replacePlaceholderPass pat rep l with
      | (r, true) => replacePlaceholderLoop pat rep fuel r
      | (_, false) => l

/-- `replacePlaceholder(template, key, value)` (manager.go): replaces
`{key}` by `value`. -/
def replacePlaceholderGo (template key value : String) : String :=
  let placeholder := "\x7b" ++ key ++ "\x7d"
  ⟨replacePlaceholderLoop placeholder.data value.data
    (template.data.length + 1) template.data⟩

/-- The DSN `initDatabase` builds with `fmt.Sprintf`. -/
def buildDSN (t : DatabaseConfig) (dbName : String) : String :=
  t.Username ++ ":" ++ t.Password ++ "@tcp(" ++ t.Host ++ ":" ++
    goIntToString t.Port ++ ")/" ++ dbName ++ "?charset=" ++ t.Charset ++
    "&parseTime=True&loc=Local"

/-- The three checks `initDatabase` (manager.go) runs on one table
config, in source order, with the source's error messages; `none` when
the table passes all of them. -/
def tableConfigError (tableName : String) (tc : TableShardingConfig) :
    Option String :=
  if tc.ShardingKey = "" then
    some ("sharding_key is required for table " ++ tableName)
  else if tc.TableCount ≤ 0 then
    some ("table_count must be greater than 0 for table " ++ tableName)
  else if tc.Algorithm = none then
    some ("algorithm is required for table " ++ tableName)
  else none

/-- The table-config validation loop inside `initDatabase`
(manager.go): first failing table in iteration order; a nil table
pointer would be dereferenced. -/
def validateTables :
    List (String × Option TableShardingConfig) → Option String
  | [] => none
  | (tableName, tcOpt) :: rest =>
      match tcOpt with
      | none =>
          some "runtime error: invalid memory address or nil pointer dereference"
      | some tc =>
          match tableConfigError tableName tc with
          | some e => some e
          | none => validateTables rest

/-- `initDatabase` (manager.go): build the database name and DSN, call
`gorm.Open` (recorded as a trace event in the first component), and
only then validate every table config.  A validation failure thus
happens after the connection for this index has been opened. -/
def initDatabase (cfg : ShardingConfig) (dbIndex : Int) :
    List String × Except String GoDB :=
  let dbName :=
    if cfg.DatabaseTemplate.Database = "" then
      "nbgame_" ++ goIntToString dbIndex
    else
      replacePlaceholderGo cfg.DatabaseTemplate.Database "db_index"
        (goIntToString dbIndex)
  let dsn := buildDSN cfg.DatabaseTemplate dbName
  let opened := [dsn]
  match validateTables cfg.TableConfigs with
  | some e => (opened, .error e)
  | none => (opened, .ok ⟨dsn⟩)

/-- The init loop of `ShardingManager.Init`: `remaining` counts the
indices left (`i` runs `0..DatabaseCount-1`); on the first failing
`initDatabase` the wrapped error is returned with `initialized` left
false; otherwise the flag is set after the loop. -/
def managerInitGo (cfg : ShardingConfig) :
    Nat → Nat → ShardingManager → List String →
    ShardingManager × Except String Unit × List String
  | 0, _, sm, trace => ({ sm with initialized := true }, .ok (), trace)
  | remaining + 1, i, sm, trace =>
      let r := initDatabase cfg (i : Int)
      match r.2 with
      | .error e =>
          (sm, .error ("failed to init database " ++ goIntToString (i : Int)
            ++ ": " ++ e), trace ++ r.1)
      | .ok db =>
          managerInitGo cfg remaining (i + 1)
            { sm with databases := sm.databases.set i (some db) }
            (trace ++ r.1)

/-- `ShardingManager.Init` (manager.go).  The source assigns
`sm.config = config` before checking the initialized flag; on the
already-initialized path it returns the error with the connection list
and the flag untouched but the config already overwritten.  The third
component is the trace of `gorm.Open` calls, in order. -/
def managerInit (sm : ShardingManager) (config : ShardingConfig) :
    ShardingManager × Except String Unit × List String :=
  let sm1 := { sm with config := some config }
  if sm1.initialized then
    (sm1, .error "sharding manager already initialized", [])
  else
    managerInitGo config config.DatabaseCount.toNat 0
      { sm1 with databases :=
          List.replicate config.DatabaseCount.toNat none } []

/-- `ShardingManager.GetDBForTable` (manager.go): table config lookup,
database index via the table's algorithm (`calculateDatabaseIndex`
defaults to the Long algorithm on a nil interface), bound check, then
the connection at that index. -/
def getDBForTable (sm : ShardingManager) (tableName : String)
    (v : GoValue) : Except String (Option GoDB) :=
  if sm.initialized = false then .error "sharding manager not initialized"
  else
    match sm.config with
    | none =>
        .error "runtime error: invalid memory address or nil pointer dereference"
    | some cfg =>
        match lookupTable cfg tableName with
        | some (some tc) =>
            match calcShardIndex (tc.Algorithm.getD .long) v
                cfg.DatabaseCount with
            | .error e => .error e
            | .ok dbIndex =>
                if dbIndex < 0 ∨ (sm.databases.length : Int) ≤ dbIndex then
                  .error ("invalid database index: " ++ goIntToString dbIndex)
                else .ok (sm.databases.getD dbIndex.toNat none)
        | _ => .error ("table config not found for table " ++ tableName)

/-- `ShardingManager.GetDBByIndex` (manager.go). -/
def getDBByIndex (sm : ShardingManager) (dbIndex : Int) :
    Except String (Option GoDB) :=
  if sm.initialized = false then .error "sharding manager not initialized"
  else if dbIndex < 0 ∨ (sm.databases.length : Int) ≤ dbIndex then
    .error ("invalid database index: " ++ goIntToString dbIndex)
  else .ok (sm.databases.getD dbIndex.toNat none)

/-- `CalculateShardForTable` (integration_example.go): the dry-run
calculator over the manager's registered table configs. -/
def calculateShardForTable (sm : ShardingManager) (tableName : String)
    (v : GoValue) : Except String ShardInfo :=
  if sm.initialized = false then .error "sharding manager not initialized"
  else
    match sm.config with
    | none => .error "sharding config not found"
    | some cfg =>
        match lookupTable cfg tableName with
        | some (some tc) =>
            match tc.Algorithm with
            | none => .error ("algorithm is required for table " ++ tableName)
            | some alg =>
                if tc.TableCount ≤ 0 then
                  .error ("table_count must be greater than 0 for table "
                    ++ tableName)
                else
                  match calcShardIndex alg v cfg.DatabaseCount with
                  | .error e =>
                      .error ("failed to calculate database index: " ++ e)
                  | .ok dbIndex =>
                      match calcShardIndex alg v tc.TableCount with
                      | .error e =>
                          .error ("failed to calculate table index: " ++ e)
                      | .ok tableIndex =>
                          let dbName :=
                            if 1 < cfg.DatabaseCount then
                              replacePlaceholderAll
                                cfg.DatabaseTemplate.Database "{db_index}"
                                (goIntToString dbIndex)
                            else cfg.DatabaseTemplate.Database
                          .ok ⟨dbIndex, tableIndex, dbName,
                            tableName ++ "_" ++ goIntToString tableIndex⟩
        | _ =>
            .error ("table config not found for table " ++ tableName
              ++ ", each table must be configured in table_configs")

/-- A `*gorm.DB` handle as the facade hands it out: the underlying
connection (possibly nil) and the table name set on the session by
`.Table(...)`, if any.  `⟨none, none⟩` is the empty `&gorm.DB{}`. -/
structure ShardingSession where
  conn : Option GoDB
  table : Option String
  deriving DecidableEq, Repr

/-- `GetShardedDB` (wrapper): shard info, connection, then a session
scoped to the sharded table name. -/
def getShardedDB (sm : ShardingManager) (tableName : String) (v : GoValue) :
    Except String (ShardingSession × String) :=
  match calculateShardForTable sm tableName v with
  | .error e => .error ("failed to calculate shard: " ++ e)
  | .ok shardInfo =>
      match getDBForTable sm tableName v with
      | .error e => .error ("failed to get DB: " ++ e)
      | .ok db => .ok (⟨db, some shardInfo.TableName⟩, shardInfo.TableName)

/-- `MustGetShardedDB` (wrapper): on failure fall back to
`GetDefaultDB` (= `GetDBByIndex 0`) scoped to the original unsharded
table name; if even that fails, return the empty `&gorm.DB{}`. -/
def mustGetShardedDB (sm : ShardingManager) (tableName : String)
    (v : GoValue) : ShardingSession :=
  match getShardedDB sm tableName v with
  | .ok r => r.1
  | .error _ =>
      match getDBByIndex sm 0 with
      | .ok d => ⟨d, some tableName⟩
      | .error _ => ⟨none, none⟩

/-! ### Slice aliasing model for `GetAllDBs` (manager.go)

`GetAllDBs` allocates a fresh backing array with `make` and `copy`s the
manager's connections into it.  To state that the returned slice does
not alias the manager's internal one, slices are modelled as references
into a heap of allocated backing arrays. -/

/-- The heap of allocated slice backing arrays; a Go slice value is an
index into it. -/
abbrev SliceHeap : Type := List (List (Option GoDB))

/-- `GetAllDBs`: allocate a fresh array (a new heap cell), `copy` the
contents of the manager's slice (referenced by `dbsRef`) into it, and
return the new reference. -/
def getAllDBs (h : SliceHeap) (dbsRef : Nat) : SliceHeap × Nat :=
  (h ++ [h.getD dbsRef []], h.length)

/-- A caller mutating the slice referenced by `r`: store `v` at
index `i`. -/
def writeSlice (h : SliceHeap) (r i : Nat) (v : Option GoDB) : SliceHeap :=
  h.set r ((h.getD r []).set i v)

/-- The contents of the slice referenced by `r`. -/
def readSlice (h : SliceHeap) (r : Nat) : List (Option GoDB) :=
  h.getD r []

/-! ### Arithmetic facts about the embedded Go primitives -/

theorem wrap32_lb (x : Int) : -(2 ^ 31) ≤ wrap32 x := by
  have h : 0 ≤ (x + 2 ^ 31) % 2 ^ 32 := Int.emod_nonneg _ (by norm_num)
  unfold wrap32; omega

theorem wrap32_ub (x : Int) : wrap32 x < 2 ^ 31 := by
  have h : (x + 2 ^ 31) % 2 ^ 32 < 2 ^ 32 := Int.emod_lt_of_pos _ (by norm_num)
  unfold wrap32; omega

theorem wrap32_eq_self {x : Int} (h1 : -(2 ^ 31) ≤ x) (h2 : x < 2 ^ 31) :
    wrap32 x = x := by
  unfold wrap32
  rw [Int.emod_eq_of_lt (by omega) (by omega)]
  omega

theorem wrap32_natAbs_le (x : Int) : (wrap32 x).natAbs ≤ 2 ^ 31 := by
  have h1 := wrap32_lb x
  have h2 := wrap32_ub x
  omega

theorem mask31_nonneg (x : Int) : 0 ≤ mask31 x :=
  Int.emod_nonneg _ (by norm_num)

theorem mask31_lt (x : Int) : mask31 x < 2 ^ 31 :=
  Int.emod_lt_of_pos _ (by norm_num)

/-- On a nonnegative dividend, Go's `%` is the natural-number remainder
by the divisor's magnitude. -/
theorem goRem_of_nonneg {a : Int} (b : Int) (h : 0 ≤ a) :
    goRem a b = ((a.natAbs % b.natAbs : Nat) : Int) := by
  simp [goRem, h]

theorem goRem_nonneg_of_nonneg {a : Int} (b : Int) (h : 0 ≤ a) :
    0 ≤ goRem a b := by
  rw [goRem_of_nonneg b h]; positivity

theorem goRem_lt_natAbs {a b : Int} (hb : b ≠ 0) :
    goRem a b < (b.natAbs : Int) := by
  have hlt : a.natAbs % b.natAbs < b.natAbs :=
    Nat.mod_lt _ (by omega)
  unfold goRem
  split <;> omega

/-- The absolute-value normalization in
`LongShardingAlgorithm.CalculateShardIndex` yields exactly
`|id| mod |shardCount|`. -/
theorem longAbsRem (id n : Int) :
    (if goRem id n < 0 then -goRem id n else goRem id n) =
      ((id.natAbs % n.natAbs : Nat) : Int) := by
  unfold goRem
  split <;> split <;> omega

/-- The hash-mask-modulo step shared by the String and MultiString
algorithms lands in `[0, shardCount)` whenever it does not divide by
zero. -/
theorem hashStep_range (h n : Int) (hn : 0 < n) (hd : wrap32 n ≠ 0) :
    0 ≤ goRem (mask31 h) (wrap32 n) ∧ goRem (mask31 h) (wrap32 n) < n := by
  have hnn := goRem_nonneg_of_nonneg (wrap32 n) (mask31_nonneg h)
  have hlt := @goRem_lt_natAbs (mask31 h) _ hd
  refine ⟨hnn, ?_⟩
  by_cases hsmall : n < 2 ^ 31
  · have hw : wrap32 n = n := wrap32_eq_self (by omega) hsmall
    rw [hw] at hlt ⊢
    omega
  · have := wrap32_natAbs_le n
    omega

theorem long_ok_range (v : GoValue) (n i : Int) (hn : 0 < n)
    (h : longCalculateShardIndex v n = .ok i) : 0 ≤ i ∧ i < n := by
  have hrange : ∀ id : Int,
      (if n = 0 then
         (.error "runtime error: integer divide by zero" : Except String Int)
       else .ok (if goRem id n < 0 then -goRem id n else goRem id n)) =
        .ok i →
      0 ≤ i ∧ i < n := by
    intro id hid
    rw [if_neg (by omega)] at hid
    have habs := longAbsRem id n
    have hlt : id.natAbs % n.natAbs < n.natAbs := Nat.mod_lt _ (by omega)
    injection hid with hi
    omega
  cases v with
  | vInt id => exact hrange id h
  | vStr s =>
      cases hps : parseInt64 s with
      | none => simp [longCalculateShardIndex, hps] at h
      | some id =>
          exact hrange id (by simpa [longCalculateShardIndex, hps] using h)
  | vList l => simp [longCalculateShardIndex] at h
  | vMap m => simp [longCalculateShardIndex] at h

theorem string_ok_range (v : GoValue) (n i : Int) (hn : 0 < n)
    (h : stringCalculateShardIndex v n = .ok i) : 0 ≤ i ∧ i < n := by
  simp only [stringCalculateShardIndex] at h
  split at h
  · exact absurd h (by simp)
  · injection h with hi
    rw [← hi]
    exact hashStep_range _ n hn (by assumption)

theorem multiString_ok_range (v : GoValue) (n i : Int) (hn : 0 < n)
    (h : multiStringCalculateShardIndex v n = .ok i) : 0 ≤ i ∧ i < n := by
  simp only [multiStringCalculateShardIndex] at h
  split at h
  · exact absurd h (by simp)
  · split at h
    · exact absurd h (by simp)
    · injection h with hi
      rw [← hi]
      exact hashStep_range _ n hn (by assumption)

/-- C1: for every sharding-key value and every `shardCount > 0`,
`CalculateShardIndex` of each of the three algorithms (Long, String,
MultiString) returns, whenever it returns without error, an index in
`[0, shardCount)`. -/
theorem calculateShardIndex_in_range (v : GoValue) (n : Int) (hn : 0 < n) :
    (∀ i, longCalculateShardIndex v n = .ok i → 0 ≤ i ∧ i < n) ∧
    (∀ i, stringCalculateShardIndex v n = .ok i → 0 ≤ i ∧ i < n) ∧
    (∀ i, multiStringCalculateShardIndex v n = .ok i → 0 ≤ i ∧ i < n) :=
  ⟨fun i h => long_ok_range v n i hn h,
   fun i h => string_ok_range v n i hn h,
   fun i h => multiString_ok_range v n i hn h⟩

theorem calculateShardIndex_in_range_witness :
    0 ≤ (3 : Int) ∧ (3 : Int) < 4 :=
  (calculateShardIndex_in_range (.vInt (-7)) 4 (by norm_num)).1 3 (by rfl)

/-- C2: the Long algorithm computes `|id mod shardCount|` with
absolute-value normalization of the truncated (Go-style, not
Euclidean) remainder; negating the key never changes the index, and in
particular the key `-7` with `shardCount = 4` yields index 3, the same
as the key `7`. -/
theorem long_abs_normalization (id n : Int) (hn : 0 < n) :
    longCalculateShardIndex (.vInt id) n = .ok |goRem id n| ∧
    longCalculateShardIndex (.vInt (-id)) n =
      longCalculateShardIndex (.vInt id) n ∧
    longCalculateShardIndex (.vInt (-7)) 4 = .ok 3 ∧
    longCalculateShardIndex (.vInt 7) 4 = .ok 3 := by
  refine ⟨?_, ?_, by rfl, by rfl⟩
  · simp only [longCalculateShardIndex]
    rw [if_neg (by omega)]
    congr 1
    rcases abs_cases (goRem id n) with ⟨h1, h2⟩ | ⟨h1, h2⟩ <;> rw [h1] <;>
      split <;> omega
  · have h1 := longAbsRem id n
    have h2 := longAbsRem (-id) n
    rw [Int.natAbs_neg] at h2
    simp only [longCalculateShardIndex]
    rw [h1, h2]

theorem long_abs_normalization_witness :
    longCalculateShardIndex (.vInt (-7)) 4 = .ok |goRem (-7) 4| ∧
    longCalculateShardIndex (.vInt (-(-7))) 4 =
      longCalculateShardIndex (.vInt (-7)) 4 ∧
    longCalculateShardIndex (.vInt (-7)) 4 = .ok 3 ∧
    longCalculateShardIndex (.vInt 7) 4 = .ok 3 :=
  long_abs_normalization (-7) 4 (by norm_num)

/-- On a nonnegative dividend and positive divisor, Go's `%` agrees
with mathematical modulo. -/
theorem goRem_eq_emod {a b : Int} (ha : 0 ≤ a) (hb : 0 < b) :
    goRem a b = a % b := by
  rw [goRem_of_nonneg b ha]
  push_cast
  rw [abs_of_nonneg ha, abs_of_nonneg (le_of_lt hb)]

/-- The index formula of the spec for the String algorithm, following
its words: "computes a 32-bit signed polynomial hash with multiplier 31
..., masks off the sign bit (`hash & 0x7FFFFFFF`), then takes modulo
`shardCount`" — the modulo taken by `shardCount` itself (the masked
hash is nonnegative, so Java-style `%` and mathematical modulo agree
here). -/
def specStringShardIndex (s : String) (shardCount : Int) : Int :=
  mask31 (stringHashCode s) % shardCount

/-- C3 fails as stated: at `shardCount = 2^31 + 1` the source converts
the shard count to `int32`, which wraps to `-(2^31 - 1)`, so for a
string whose masked hash is `2^31 - 1` (such as `"hwgeaqac"`, with
Java hash code `0x7FFFFFFF`) the code returns index 0 while the spec's
formula `(hash & 0x7FFFFFFF) mod shardCount` yields `2^31 - 1`. -/
theorem string_spec_formula_counterexample :
    stringCalculateShardIndex (.vStr "hwgeaqac") 2147483649 ≠
      .ok (specStringShardIndex "hwgeaqac" 2147483649) := by
  intro h
  have h0 : stringCalculateShardIndex (.vStr "hwgeaqac") 2147483649 =
      .ok 0 := by rfl
  have h1 : specStringShardIndex "hwgeaqac" 2147483649 = 2147483647 := by
    rfl
  rw [h0, h1] at h
  exact absurd (Except.ok.inj h) (by norm_num)

/-- C3 (amended): for every string and every `shardCount` in
`(0, 2^31)` — where the `int32` conversion of the shard count is the
identity — the String algorithm is deterministic and computes
`((hash & 0x7FFFFFFF) mod shardCount)` with `hash` the 32-bit signed
Java-style polynomial hash of the string. -/
theorem string_algorithm_java_hash (s : String) (n : Int) (h1 : 0 < n)
    (h2 : n < 2 ^ 31) :
    stringCalculateShardIndex (.vStr s) n = .ok (specStringShardIndex s n) ∧
    stringCalculateShardIndex (.vStr s) n =
      stringCalculateShardIndex (.vStr s) n := by
  refine ⟨?_, rfl⟩
  simp only [stringCalculateShardIndex, specStringShardIndex]
  have hw : wrap32 n = n := wrap32_eq_self (by omega) h2
  rw [hw, if_neg (by omega), goRem_eq_emod (mask31_nonneg _) h1]

theorem string_algorithm_java_hash_witness :
    stringCalculateShardIndex (.vStr "alice") 4 =
      .ok (specStringShardIndex "alice" 4) ∧
    stringCalculateShardIndex (.vStr "alice") 4 =
      stringCalculateShardIndex (.vStr "alice") 4 :=
  string_algorithm_java_hash "alice" 4 (by norm_num) (by norm_num)

/-! ### Correctness of the map-key selection sort -/

theorem selMin_perm (x : String) (l : List String) :
    ((selMin x l).1 :: (selMin x l).2).Perm (x :: l) := by
  induction l generalizing x with
  | nil => simp [selMin]
  | cons y ys ih =>
      by_cases h : y < x
      · simp only [selMin, if_pos h]
        exact (List.Perm.swap x (selMin y ys).1 (selMin y ys).2).trans
          ((ih y).cons x)
      · simp only [selMin, if_neg h]
        exact (List.Perm.swap y (selMin x ys).1 (selMin x ys).2).trans
          (((ih x).cons y).trans (List.Perm.swap x y ys))

theorem selMin_le (x : String) (l : List String) :
    ∀ z ∈ x :: l, (selMin x l).1 ≤ z := by
  induction l generalizing x with
  | nil =>
      intro z hz
      rcases List.mem_cons.mp hz with rfl | hz'
      · exact le_refl _
      · cases hz'
  | cons y ys ih =>
      intro z hz
      by_cases h : y < x
      · simp only [selMin, if_pos h]
        rcases List.mem_cons.mp hz with hz1 | hz'
        · rw [hz1]
          exact le_trans (ih y y (List.mem_cons_self _ _)) (le_of_lt h)
        · exact ih y z hz'
      · simp only [selMin, if_neg h]
        rcases List.mem_cons.mp hz with hz1 | hz'
        · rw [hz1]
          exact ih x x (List.mem_cons_self _ _)
        · rcases List.mem_cons.mp hz' with hz2 | hz''
          · rw [hz2]
            exact le_trans (ih x x (List.mem_cons_self _ _)) (not_lt.mp h)
          · exact ih x z (List.mem_cons_of_mem _ hz'')

theorem selSort_perm : ∀ l : List String, (selSort l).Perm l
  | [] => by simp [selSort]
  | x :: xs => by
      rw [selSort]
      exact ((selSort_perm (selMin x xs).2).cons _).trans (selMin_perm x xs)
  termination_by l => l.length
  decreasing_by simp [selMin_length_snd]

theorem selSort_sorted : ∀ l : List String, (selSort l).Sorted (· ≤ ·)
  | [] => by simp [selSort]
  | x :: xs => by
      rw [selSort, List.sorted_cons]
      refine ⟨?_, selSort_sorted (selMin x xs).2⟩
      intro b hb
      have hb' : b ∈ (selMin x xs).2 := (selSort_perm _).mem_iff.mp hb
      exact selMin_le x xs b
        ((selMin_perm x xs).mem_iff.mp (List.mem_cons_of_mem _ hb'))
  termination_by l => l.length
  decreasing_by simp [selMin_length_snd]

theorem selSort_eq_of_perm {l₁ l₂ : List String} (h : l₁.Perm l₂) :
    selSort l₁ = selSort l₂ :=
  List.eq_of_perm_of_sorted
    ((selSort_perm l₁).trans (h.trans (selSort_perm l₂).symm))
    (selSort_sorted l₁) (selSort_sorted l₂)

theorem find?_eq_some_of_unique {α : Type} {p : α → Bool} {l : List α}
    {e : α} (he : e ∈ l) (hpe : p e = true)
    (huniq : ∀ y ∈ l, p y = true → y = e) : l.find? p = some e := by
  induction l with
  | nil => cases he
  | cons z zs ih =>
      by_cases hz : p z = true
      · have hze : z = e := huniq z (by simp) hz
        rw [List.find?_cons_of_pos _ hz, hze]
      · have he' : e ∈ zs := by
          rcases List.mem_cons.mp he with rfl | h'
          · exact absurd hpe hz
          · exact h'
        rw [List.find?_cons_of_neg _ hz]
        exact ih he' (fun y hy hpy => huniq y (List.mem_cons_of_mem _ hy) hpy)

theorem find?_eq_of_perm_of_nodup_keys {m₁ m₂ : List (String × String)}
    (hp : m₁.Perm m₂) (hnd : (m₁.map Prod.fst).Nodup) (k : String) :
    m₁.find? (fun kv => kv.1 == k) = m₂.find? (fun kv => kv.1 == k) := by
  have hinj : ∀ a ∈ m₁, ∀ b ∈ m₁, a.1 = b.1 → a = b :=
    List.inj_on_of_nodup_map hnd
  cases hfind : m₁.find? (fun kv => kv.1 == k) with
  | none =>
      refine (List.find?_eq_none.mpr fun y hy => ?_).symm
      exact List.find?_eq_none.mp hfind y (hp.mem_iff.mpr hy)
  | some e =>
      have hpe := List.find?_some hfind
      have he : e ∈ m₁ := List.mem_of_find?_eq_some hfind
      have huniq : ∀ y ∈ m₂, (fun kv : String × String => kv.1 == k) y =
          true → y = e := by
        intro y hy hpy
        simp only [beq_iff_eq] at hpe hpy
        exact hinj y (hp.mem_iff.mpr hy) e he (by rw [hpy, hpe])
      exact (find?_eq_some_of_unique (hp.mem_iff.mp he) hpe huniq).symm

/-- C4: for map-shaped inputs the MultiString algorithm is independent
of the map's iteration/insertion order: two association lists holding
the same key/value pairs (with no duplicate keys, as in a Go map)
produce the same result for every shard count, because the keys are
sorted before joining. -/
theorem multiString_map_order_independent (m₁ m₂ : List (String × String))
    (n : Int) (hnd : (m₁.map Prod.fst).Nodup) (hp : m₁.Perm m₂) :
    multiStringCalculateShardIndex (.vMap m₁) n =
      multiStringCalculateShardIndex (.vMap m₂) n := by
  have hkeys : (m₁.map Prod.fst).Perm (m₂.map Prod.fst) := hp.map _
  have hsort : selSort (m₁.map Prod.fst) = selSort (m₂.map Prod.fst) :=
    selSort_eq_of_perm hkeys
  have hfun : mapLookup m₁ = mapLookup m₂ := by
    funext k
    unfold mapLookup
    rw [find?_eq_of_perm_of_nodup_keys hp hnd k]
  simp only [multiStringCalculateShardIndex, hsort, hfun]

theorem multiString_map_order_independent_witness :
    multiStringCalculateShardIndex (.vMap [("b", "2"), ("a", "1")]) 7 =
      multiStringCalculateShardIndex (.vMap [("a", "1"), ("b", "2")]) 7 :=
  multiString_map_order_independent [("b", "2"), ("a", "1")]
    [("a", "1"), ("b", "2")] 7 (by decide) (by decide)

/-! ### Correctness of the placeholder-replacement loop -/

theorem findSub_some {l pat : List Char} {i : Nat}
    (h : findSub l pat = some i) :
    pat <+: l.drop i ∧ ∀ j, j < i → ¬ pat <+: l.drop j := by
  induction l generalizing i with
  | nil =>
      unfold findSub at h
      by_cases hp : pat.isPrefixOf ([] : List Char) = true
      · rw [if_pos hp] at h
        injection h with h1
        subst h1
        exact ⟨by simpa [List.isPrefixOf_iff_prefix] using hp, by omega⟩
      · rw [if_neg hp] at h
        cases h
  | cons c t ih =>
      unfold findSub at h
      by_cases hp : pat.isPrefixOf (c :: t) = true
      · rw [if_pos hp] at h
        injection h with h1
        subst h1
        exact ⟨by simpa [List.isPrefixOf_iff_prefix] using hp, by omega⟩
      · rw [if_neg hp] at h
        replace h : (findSub t pat).map (· + 1) = some i := h
        cases hft : findSub t pat with
        | none => rw [hft] at h; cases h
        | some j =>
            rw [hft] at h
            injection h with h1
            replace h1 : j + 1 = i := h1
            obtain ⟨hpre, hmin⟩ := ih hft
            subst h1
            refine ⟨by rwa [List.drop_succ_cons], ?_⟩
            intro m hm
            cases m with
            | zero =>
                intro hbad
                rw [List.drop_zero] at hbad
                exact hp (List.isPrefixOf_iff_prefix.mpr hbad)
            | succ m' =>
                rw [List.drop_succ_cons]
                exact hmin m' (by omega)

theorem findSub_none {l pat : List Char} (h : findSub l pat = none) :
    ∀ j, ¬ pat <+: l.drop j := by
  induction l with
  | nil =>
      unfold findSub at h
      by_cases hp : pat.isPrefixOf ([] : List Char) = true
      · rw [if_pos hp] at h; cases h
      · intro j hbad
        rw [List.drop_nil] at hbad
        exact hp (List.isPrefixOf_iff_prefix.mpr hbad)
  | cons c t ih =>
      unfold findSub at h
      by_cases hp : pat.isPrefixOf (c :: t) = true
      · rw [if_pos hp] at h; cases h
      · rw [if_neg hp] at h
        replace h : (findSub t pat).map (· + 1) = none := h
        cases hft : findSub t pat with
        | some j => rw [hft] at h; cases h
        | none =>
            intro j
            cases j with
            | zero =>
                intro hbad
                rw [List.drop_zero] at hbad
                exact hp (List.isPrefixOf_iff_prefix.mpr hbad)
            | succ j' =>
                rw [List.drop_succ_cons]
                exact ih hft j'

theorem matchCount_cons (pat : List Char) (c : Char) (t : List Char) :
    matchCount pat (c :: t) =
      (if pat.isPrefixOf (c :: t) then 1 else 0) + matchCount pat t := rfl

theorem matchCount_drop_le (pat l : List Char) (k : Nat) :
    matchCount pat (l.drop k) ≤ matchCount pat l := by
  induction l generalizing k with
  | nil => simp
  | cons c t ih =>
      cases k with
      | zero => simp
      | succ k1 =>
          rw [List.drop_succ_cons]
          have h1 := ih k1
          rw [matchCount_cons]
          omega

theorem matchCount_pos_of_match {pat l : List Char} {i : Nat}
    (hpat : pat ≠ []) (h : pat <+: l.drop i) :
    1 + matchCount pat (l.drop (i + pat.length)) ≤ matchCount pat l := by
  induction l generalizing i with
  | nil =>
      rw [List.drop_nil] at h
      exact absurd (List.prefix_nil.mp h) hpat
  | cons c t ih =>
      cases i with
      | zero =>
          rw [List.drop_zero] at h
          have hps : pat.isPrefixOf (c :: t) = true :=
            List.isPrefixOf_iff_prefix.mpr h
          have hplen : 0 < pat.length := List.length_pos.mpr hpat
          have hdrop : (c :: t).drop (0 + pat.length) =
              t.drop (pat.length - 1) := by
            rw [show 0 + pat.length = (pat.length - 1) + 1 by omega,
              List.drop_succ_cons]
          rw [hdrop, matchCount_cons, if_pos hps]
          have := matchCount_drop_le pat t (pat.length - 1)
          omega
      | succ i1 =>
          rw [List.drop_succ_cons] at h
          have h1 := ih h
          rw [matchCount_cons,
            show i1 + 1 + pat.length = (i1 + pat.length) + 1 by omega,
            List.drop_succ_cons]
          omega

theorem matchCount_append_eq {pat : List Char} (y : List Char) :
    ∀ x : List Char, (∀ p, p < x.length → ¬ pat <+: (x ++ y).drop p) →
      matchCount pat (x ++ y) = matchCount pat y
  | [], _ => by simp
  | c :: t, h => by
      rw [List.cons_append, matchCount_cons]
      have h0 : ¬ pat.isPrefixOf (c :: (t ++ y)) = true := by
        intro hp
        exact h 0 (by simp)
          (by simpa [List.isPrefixOf_iff_prefix] using hp)
      rw [if_neg h0]
      have hrec := matchCount_append_eq y t (fun p hp hpre =>
        h (p + 1) (by simp; omega)
          (by rwa [List.cons_append, List.drop_succ_cons]))
      omega

theorem matchCount_le_length {pat : List Char} (hpat : pat ≠ []) :
    ∀ l : List Char, matchCount pat l ≤ l.length
  | [] => by
      have hp : ¬ pat.isPrefixOf ([] : List Char) = true := by
        intro hbad
        exact hpat (List.prefix_nil.mp (List.isPrefixOf_iff_prefix.mp hbad))
      unfold matchCount
      rw [if_neg hp]
      exact Nat.zero_le _
  | c :: t => by
      rw [matchCount_cons]
      have := matchCount_le_length hpat t
      have hlen : (c :: t).length = t.length + 1 := rfl
      split <;> omega

theorem prefix_of_append_of_le {pat u v : List Char}
    (h : pat <+: u ++ v) (hle : pat.length ≤ u.length) : pat <+: u := by
  obtain ⟨t, ht⟩ := h
  have h1 : (u ++ v).take pat.length = pat := by
    rw [← ht]
    exact List.take_left pat t
  have h2 : (u ++ v).take pat.length = u.take pat.length :=
    List.take_append_of_le_length hle
  rw [← h1, h2]
  exact List.take_prefix _ _

theorem findSub_some_bound {l pat : List Char} {i : Nat} (hpat : pat ≠ [])
    (h : findSub l pat = some i) : i + pat.length ≤ l.length := by
  obtain ⟨hpre, _⟩ := findSub_some h
  have h1 : pat.length ≤ (l.drop i).length := hpre.length_le
  rw [List.length_drop] at h1
  by_cases hi : i ≤ l.length
  · omega
  · exfalso
    have hnil : l.drop i = [] := List.drop_eq_nil_of_le (by omega)
    rw [hnil] at hpre
    exact hpat (List.prefix_nil.mp hpre)

/-- After one replacement step, no occurrence of the pattern starts
before the end of the spliced-in replacement text: an occurrence
entirely inside the untouched prefix would contradict leftmostness of
the replaced one, and an occurrence overlapping the replacement would
have to contain a replacement character, which does not occur in the
pattern. -/
theorem replaceAt_no_early_match {pat rep l : List Char} {i : Nat}
    (hpat : pat ≠ []) (hrep : rep ≠ [])
    (hdisj : ∀ c ∈ rep, c ∉ pat)
    (hfind : findSub l pat = some i) :
    ∀ p, p < i + rep.length → ¬ pat <+: (replaceAt l pat rep i).drop p := by
  obtain ⟨hpre, hmin⟩ := findSub_some hfind
  have hil : i + pat.length ≤ l.length := findSub_some_bound hpat hfind
  have htake : (l.take i).length = i := by rw [List.length_take]; omega
  have hplen : 0 < pat.length := List.length_pos.mpr hpat
  have hrlen : 0 < rep.length := List.length_pos.mpr hrep
  intro p hp hbad
  by_cases hcase : p + pat.length ≤ i
  · -- the occurrence window lies inside the unchanged prefix
    have hdropeq : (replaceAt l pat rep i).drop p =
        (l.take i).drop p ++ (rep ++ l.drop (i + pat.length)) := by
      unfold replaceAt
      rw [List.append_assoc, List.drop_append_of_le_length (by omega)]
    rw [hdropeq] at hbad
    have hfit : pat <+: (l.take i).drop p :=
      prefix_of_append_of_le hbad
        (by rw [List.length_drop, htake]; omega)
    have hsub : (l.take i).drop p <+: l.drop p := by
      rw [List.drop_take]
      exact List.take_prefix _ _
    exact hmin p (by omega) (hfit.trans hsub)
  · -- the occurrence window contains a character of the replacement
    push_neg at hcase
    obtain ⟨tl, htl⟩ := hbad
    have hq1 : max p i < i + rep.length := by omega
    have hq2 : max p i - p < pat.length := by omega
    have hq4 : max p i - i < rep.length := by omega
    have hrepq : (replaceAt l pat rep i)[max p i]? = rep[max p i - i]? := by
      unfold replaceAt
      rw [List.getElem?_append_left (by rw [List.length_append, htake]; omega)]
      rw [List.getElem?_append_right (by rw [htake]; omega), htake]
    have hpatq : (replaceAt l pat rep i)[max p i]? = pat[max p i - p]? := by
      have h1 : ((replaceAt l pat rep i).drop p)[max p i - p]? =
          (replaceAt l pat rep i)[max p i]? := by
        rw [List.getElem?_drop]
        congr 1
        omega
      rw [← h1, ← htl, List.getElem?_append_left hq2]
    have hsome : pat[max p i - p]? = rep[max p i - i]? := by
      rw [← hpatq, hrepq]
    rw [List.getElem?_eq_getElem hq2, List.getElem?_eq_getElem hq4] at hsome
    injection hsome with hceq
    have hmem : pat[max p i - p] ∈ rep := by
      rw [hceq]
      exact List.getElem_mem _
    exact hdisj _ hmem (List.getElem_mem _)

theorem matchCount_replaceAt_lt {pat rep l : List Char} {i : Nat}
    (hpat : pat ≠ []) (hrep : rep ≠ [])
    (hdisj : ∀ c ∈ rep, c ∉ pat)
    (hfind : findSub l pat = some i) :
    matchCount pat (replaceAt l pat rep i) < matchCount pat l := by
  obtain ⟨hpre, _⟩ := findSub_some hfind
  have hil : i + pat.length ≤ l.length := findSub_some_bound hpat hfind
  have htake : (l.take i).length = i := by rw [List.length_take]; omega
  have hdec := matchCount_pos_of_match hpat hpre
  have hno := replaceAt_no_early_match hpat hrep hdisj hfind
  have hx : replaceAt l pat rep i =
      (l.take i ++ rep) ++ l.drop (i + pat.length) := rfl
  have heq : matchCount pat (replaceAt l pat rep i) =
      matchCount pat (l.drop (i + pat.length)) := by
    rw [hx]
    refine matchCount_append_eq _ _ (fun p hplt hbad => ?_)
    rw [List.length_append, htake] at hplt
    exact hno p hplt (by rwa [hx])
  omega

theorem replaceLoop_fixpoint {pat rep : List Char}
    (hpat : pat ≠ []) (hrep : rep ≠ [])
    (hdisj : ∀ c ∈ rep, c ∉ pat) :
    ∀ fuel l, matchCount pat l < fuel →
      findSub (replaceLoop pat rep fuel l) pat = none
  | 0, _, h => absurd h (by omega)
  | fuel + 1, l, h => by
      cases hf : findSub l pat with
      | none => simp [replaceLoop, hf]
      | some i =>
          simp only [replaceLoop, hf]
          exact replaceLoop_fixpoint hpat hrep hdisj fuel _
            (by have := matchCount_replaceAt_lt hpat hrep hdisj hf; omega)

/-! ### Decimal renderings contain only digit characters -/

theorem digitChar_bounds {k : Nat} (h : k < 10) :
    '0' ≤ Char.ofNat (48 + k) ∧ Char.ofNat (48 + k) ≤ '9' := by
  interval_cases k <;> exact ⟨by decide, by decide⟩

theorem natDigitsCore_digits :
    ∀ (fuel n : Nat) (acc : List Char),
      (∀ c ∈ acc, '0' ≤ c ∧ c ≤ '9') →
      ∀ c ∈ natDigitsCore fuel n acc, '0' ≤ c ∧ c ≤ '9'
  | 0, _, _, hacc => hacc
  | fuel + 1, n, acc, hacc => by
      unfold natDigitsCore
      split
      case isTrue hn =>
        intro c hc
        rcases List.mem_cons.mp hc with h1 | h2
        · rw [h1]; exact digitChar_bounds hn
        · exact hacc c h2
      case isFalse hn =>
        refine natDigitsCore_digits fuel (n / 10) _ ?_
        intro c hc
        rcases List.mem_cons.mp hc with h1 | h2
        · rw [h1]; exact digitChar_bounds (Nat.mod_lt _ (by omega))
        · exact hacc c h2

theorem natDigits_digits (n : Nat) :
    ∀ c ∈ natDigits n, '0' ≤ c ∧ c ≤ '9' :=
  natDigitsCore_digits (n + 1) n [] (by simp)

theorem natDigitsCore_ne_nil :
    ∀ (fuel n : Nat) (acc : List Char), acc ≠ [] →
      natDigitsCore fuel n acc ≠ []
  | 0, _, _, hacc => hacc
  | fuel + 1, n, acc, hacc => by
      unfold natDigitsCore
      split
      · simp
      · exact natDigitsCore_ne_nil fuel (n / 10) _ (by simp)

theorem natDigits_ne_nil (n : Nat) : natDigits n ≠ [] := by
  unfold natDigits natDigitsCore
  split
  · simp
  · exact natDigitsCore_ne_nil _ _ _ (by simp)

theorem goIntToString_data_of_nonneg {d : Int} (hd : 0 ≤ d) :
    (goIntToString d).data = natDigits d.natAbs := by
  unfold goIntToString
  rw [if_neg (by omega)]

theorem goIntToString_data_ne_nil {d : Int} (hd : 0 ≤ d) :
    (goIntToString d).data ≠ [] := by
  rw [goIntToString_data_of_nonneg hd]
  exact natDigits_ne_nil _

theorem pattern_no_digit :
    ∀ c ∈ ("{db_index}".data), ¬ ('0' ≤ c ∧ c ≤ '9') := by decide

theorem rep_pattern_disjoint {d : Int} (hd : 0 ≤ d) :
    ∀ c ∈ (goIntToString d).data, c ∉ ("{db_index}".data) := by
  intro c hc hmem
  rw [goIntToString_data_of_nonneg hd] at hc
  exact pattern_no_digit c hmem (natDigits_digits _ c hc)

/-! ### Every successful shard index is nonnegative -/

theorem long_ok_nonneg {v : GoValue} {n i : Int}
    (h : longCalculateShardIndex v n = .ok i) : 0 ≤ i := by
  have hrange : ∀ id : Int,
      (if n = 0 then
         (.error "runtime error: integer divide by zero" : Except String Int)
       else .ok (if goRem id n < 0 then -goRem id n else goRem id n)) =
        .ok i → 0 ≤ i := by
    intro id hid
    by_cases hn : n = 0
    · rw [if_pos hn] at hid; cases hid
    · rw [if_neg hn] at hid
      injection hid with h1
      have := longAbsRem id n
      omega
  cases v with
  | vInt id => exact hrange id h
  | vStr s =>
      cases hps : parseInt64 s with
      | none => simp [longCalculateShardIndex, hps] at h
      | some id =>
          exact hrange id (by simpa [longCalculateShardIndex, hps] using h)
  | vList l => simp [longCalculateShardIndex] at h
  | vMap m => simp [longCalculateShardIndex] at h

theorem string_ok_nonneg {v : GoValue} {n i : Int}
    (h : stringCalculateShardIndex v n = .ok i) : 0 ≤ i := by
  simp only [stringCalculateShardIndex] at h
  split at h
  · exact absurd h (by simp)
  · injection h with h1
    rw [← h1]
    exact goRem_nonneg_of_nonneg _ (mask31_nonneg _)

theorem multiString_ok_nonneg {v : GoValue} {n i : Int}
    (h : multiStringCalculateShardIndex v n = .ok i) : 0 ≤ i := by
  simp only [multiStringCalculateShardIndex] at h
  split at h
  · exact absurd h (by simp)
  · split at h
    · exact absurd h (by simp)
    · injection h with h1
      rw [← h1]
      exact goRem_nonneg_of_nonneg _ (mask31_nonneg _)

theorem calcShardIndex_ok_nonneg {alg : Alg} {v : GoValue} {n i : Int}
    (h : calcShardIndex alg v n = .ok i) : 0 ≤ i := by
  cases alg with
  | long => exact long_ok_nonneg h
  | str => exact string_ok_nonneg h
  | multi => exact multiString_ok_nonneg h

/-- C5: every successful `GetShardInfo` result carries `DatabaseIndex`
computed by the algorithm against `databaseCount`, `TableIndex`
computed independently by the same algorithm against
`tableCountPerDB` (two separate runs on the same value, not composed),
`TableName` equal to `"<original>_<tableIndex>"`, and `DatabaseName`
equal to the template with every `{db_index}` replaced by the decimal
database index — with no `{db_index}` occurrence left. -/
theorem getShardInfo_fields (alg : Alg) (databaseCount tableCountPerDB : Int)
    (name template : String) (v : GoValue) (info : ShardInfo)
    (h : getShardInfo alg databaseCount tableCountPerDB name template v =
      .ok info) :
    calcShardIndex alg v databaseCount = .ok info.DatabaseIndex ∧
    calcShardIndex alg v tableCountPerDB = .ok info.TableIndex ∧
    info.TableName = name ++ "_" ++ goIntToString info.TableIndex ∧
    info.DatabaseName = replacePlaceholderAll template "{db_index}"
      (goIntToString info.DatabaseIndex) ∧
    findSub info.DatabaseName.data ("{db_index}".data) = none := by
  unfold getShardInfo calculateDatabaseName calculateTableName at h
  cases hcs : calculateShard alg databaseCount tableCountPerDB v with
  | error e => rw [hcs] at h; cases h
  | ok p =>
      rw [hcs] at h
      injection h with h1
      subst h1
      unfold calculateShard at hcs
      cases h1 : calcShardIndex alg v databaseCount with
      | error e => rw [h1] at hcs; cases hcs
      | ok dbIndex =>
          rw [h1] at hcs
          cases h2 : calcShardIndex alg v tableCountPerDB with
          | error e => rw [h2] at hcs; cases hcs
          | ok tableIndex =>
              rw [h2] at hcs
              injection hcs with h3
              subst h3
              refine ⟨rfl, rfl, rfl, rfl, ?_⟩
              have hd : 0 ≤ dbIndex := calcShardIndex_ok_nonneg h1
              exact replaceLoop_fixpoint (by decide)
                (goIntToString_data_ne_nil hd) (rep_pattern_disjoint hd)
                (template.data.length + 1) template.data
                (by
                  have := @matchCount_le_length
                    ("{db_index}".data) (by decide) template.data
                  omega)

theorem getShardInfo_fields_witness :
    calcShardIndex .long (.vInt 12345) 2 = .ok 1 ∧
    calcShardIndex .long (.vInt 12345) 4 = .ok 1 ∧
    "users_1" = "users" ++ "_" ++ goIntToString 1 ∧
    "myapp_1" = replacePlaceholderAll "myapp_{db_index}" "{db_index}"
      (goIntToString 1) ∧
    findSub "myapp_1".data ("{db_index}".data) = none :=
  getShardInfo_fields .long 2 4 "users" "myapp_{db_index}" (.vInt 12345)
    ⟨1, 1, "myapp_1", "users_1"⟩ (by rfl)

/-- C6: for a fixed `(table, key)` on an initialized manager, the
`DatabaseIndex` reported by the dry-run `CalculateShardForTable` is the
index at which `GetDBForTable` selects the connection it returns: both
run the table's configured algorithm against the configured database
count. -/
theorem dryRun_agrees_with_getDBForTable (sm : ShardingManager)
    (tableName : String) (v : GoValue) (info : ShardInfo)
    (db : Option GoDB)
    (h1 : calculateShardForTable sm tableName v = .ok info)
    (h2 : getDBForTable sm tableName v = .ok db) :
    info.DatabaseIndex.toNat < sm.databases.length ∧
    sm.databases.getD info.DatabaseIndex.toNat none = db := by
  unfold calculateShardForTable at h1
  unfold getDBForTable at h2
  split at h1
  · exact absurd h1 (by simp)
  rename_i hinit
  split at h1
  · exact absurd h1 (by simp)
  rename_i cfg hcfg
  split at h1
  case _ tc hlk =>
    split at h1
    · exact absurd h1 (by simp)
    rename_i alg halg
    split at h1
    · exact absurd h1 (by simp)
    rename_i htc
    split at h1
    · exact absurd h1 (by simp)
    rename_i dbIndex hdb
    split at h1
    · exact absurd h1 (by simp)
    rename_i tableIndex hti
    injection h1 with h1e
    have hDBidx : info.DatabaseIndex = dbIndex := by rw [← h1e]
    rw [if_neg hinit] at h2
    simp only [hcfg] at h2
    simp only [hlk] at h2
    simp only [halg, Option.getD_some] at h2
    simp only [hdb] at h2
    split at h2
    · exact absurd h2 (by simp)
    rename_i hbound
    injection h2 with h2e
    push_neg at hbound
    rw [hDBidx]
    exact ⟨by omega, h2e⟩
  case _ hne =>
    exact absurd h1 (by simp)

theorem dryRun_agrees_with_getDBForTable_witness :
    ((1 : Int).toNat <
      ([some ⟨"dsnA"⟩, some ⟨"dsnB"⟩] : List (Option GoDB)).length) ∧
    ([some ⟨"dsnA"⟩, some ⟨"dsnB"⟩] :
        List (Option GoDB)).getD (1 : Int).toNat none = some ⟨"dsnB"⟩ :=
  dryRun_agrees_with_getDBForTable
    ⟨some ⟨2, ⟨"h", 3306, "u", "p", "db", "utf8"⟩,
        [("users", some ⟨"users", "user_id", "long", some .long, 4⟩)]⟩,
      [some ⟨"dsnA"⟩, some ⟨"dsnB"⟩], true⟩
    "users" (.vInt 12345) ⟨1, 1, "db", "users_1"⟩ (some ⟨"dsnB"⟩)
    (by rfl) (by rfl)

/-- C7 (amended): a second `Init` on an initialized manager returns the
already-initialized error and leaves the connection list and the
initialized flag untouched — but the stored config has already been
overwritten with the new argument, because the source assigns
`sm.config = config` before checking the flag. -/
theorem init_already_initialized (sm : ShardingManager)
    (cfg : ShardingConfig) (h : sm.initialized = true) :
    (managerInit sm cfg).2.1 =
      .error "sharding manager already initialized" ∧
    (managerInit sm cfg).1.databases = sm.databases ∧
    (managerInit sm cfg).1.initialized = true ∧
    (managerInit sm cfg).1.config = some cfg := by
  unfold managerInit
  simp [h]

theorem init_already_initialized_witness :
    (managerInit
        ⟨some ⟨1, ⟨"h", 3306, "u", "p", "db", "utf8"⟩, []⟩,
          [some ⟨"dsnA"⟩], true⟩
        ⟨2, ⟨"h2", 3307, "u2", "p2", "db2", "utf8"⟩, []⟩).2.1 =
      .error "sharding manager already initialized" ∧
    (managerInit
        ⟨some ⟨1, ⟨"h", 3306, "u", "p", "db", "utf8"⟩, []⟩,
          [some ⟨"dsnA"⟩], true⟩
        ⟨2, ⟨"h2", 3307, "u2", "p2", "db2", "utf8"⟩, []⟩).1.databases =
      [some ⟨"dsnA"⟩] ∧
    (managerInit
        ⟨some ⟨1, ⟨"h", 3306, "u", "p", "db", "utf8"⟩, []⟩,
          [some ⟨"dsnA"⟩], true⟩
        ⟨2, ⟨"h2", 3307, "u2", "p2", "db2", "utf8"⟩, []⟩).1.initialized =
      true ∧
    (managerInit
        ⟨some ⟨1, ⟨"h", 3306, "u", "p", "db", "utf8"⟩, []⟩,
          [some ⟨"dsnA"⟩], true⟩
        ⟨2, ⟨"h2", 3307, "u2", "p2", "db2", "utf8"⟩, []⟩).1.config =
      some ⟨2, ⟨"h2", 3307, "u2", "p2", "db2", "utf8"⟩, []⟩ :=
  init_already_initialized
    ⟨some ⟨1, ⟨"h", 3306, "u", "p", "db", "utf8"⟩, []⟩,
      [some ⟨"dsnA"⟩], true⟩
    ⟨2, ⟨"h2", 3307, "u2", "p2", "db2", "utf8"⟩, []⟩ rfl

/-- C7 fails as stated: the second `Init` does change state — the
stored config is replaced by the new argument before the
already-initialized check. -/
theorem init_already_initialized_counterexample :
    (managerInit
        ⟨some ⟨1, ⟨"h", 3306, "u", "p", "db", "utf8"⟩, []⟩,
          [some ⟨"dsnA"⟩], true⟩
        ⟨2, ⟨"h2", 3307, "u2", "p2", "db2", "utf8"⟩, []⟩).1.config ≠
      (⟨some ⟨1, ⟨"h", 3306, "u", "p", "db", "utf8"⟩, []⟩,
          [some ⟨"dsnA"⟩], true⟩ : ShardingManager).config := by
  decide

/-- C8 fails as stated: with a single configured table whose sharding
key is missing, `Init` does fail with an error naming the table — but
the connection for database index 0 has already been opened (the open
trace is nonempty), because `initDatabase` validates after
`gorm.Open`. -/
theorem init_validates_after_open_counterexample :
    (managerInit ⟨none, [], false⟩
        ⟨1, ⟨"h", 3306, "root", "pw", "", "utf8"⟩,
          [("users", some ⟨"users", "", "long", none, 4⟩)]⟩).2.1 =
      .error
        "failed to init database 0: sharding_key is required for table users" ∧
    (managerInit ⟨none, [], false⟩
        ⟨1, ⟨"h", 3306, "root", "pw", "", "utf8"⟩,
          [("users", some ⟨"users", "", "long", none, 4⟩)]⟩).2.2 ≠ [] :=
  ⟨rfl, by decide⟩

theorem tableConfigError_eq_none {tableName : String}
    {tc : TableShardingConfig} (h : tableConfigError tableName tc = none) :
    ¬ (tc.ShardingKey = "" ∨ tc.TableCount ≤ 0 ∨ tc.Algorithm = none) := by
  unfold tableConfigError at h
  split at h
  · cases h
  split at h
  · cases h
  split at h
  · cases h
  rename_i h1 h2 h3
  simp [h1, h2, h3]

theorem tableConfigError_invalid {tableName : String}
    {tc : TableShardingConfig} {e : String}
    (h : tableConfigError tableName tc = some e) :
    tc.ShardingKey = "" ∨ tc.TableCount ≤ 0 ∨ tc.Algorithm = none := by
  by_contra hvalid
  have : tableConfigError tableName tc = none := by
    unfold tableConfigError
    rw [if_neg (fun hc => hvalid (Or.inl hc)),
      if_neg (fun hc => hvalid (Or.inr (Or.inl hc))),
      if_neg (fun hc => hvalid (Or.inr (Or.inr hc)))]
  rw [this] at h
  cases h

/-- If every entry of the table-config map holds a non-nil pointer and
some entry fails one of the three checks, the validation loop returns
the error of the first failing entry, which is in the map and
invalid. -/
theorem validateTables_some_of_invalid :
    ∀ l : List (String × Option TableShardingConfig),
      (∀ p ∈ l, p.2 ≠ none) →
      (∃ p ∈ l, ∃ tc, p.2 = some tc ∧
        (tc.ShardingKey = "" ∨ tc.TableCount ≤ 0 ∨ tc.Algorithm = none)) →
      ∃ name tc e, (name, some tc) ∈ l ∧
        (tc.ShardingKey = "" ∨ tc.TableCount ≤ 0 ∨ tc.Algorithm = none) ∧
        tableConfigError name tc = some e ∧ validateTables l = some e
  | [], _, hbad => by simp at hbad
  | (n, tcOpt) :: rest, hnonnil, hbad => by
      cases tcOpt with
      | none => exact absurd rfl (hnonnil (n, none) (by simp))
      | some tc =>
          cases hce : tableConfigError n tc with
          | some e =>
              refine ⟨n, tc, e, by simp, tableConfigError_invalid hce, hce, ?_⟩
              simp [validateTables, hce]
          | none =>
              have hrest : ∃ p ∈ rest, ∃ tc2, p.2 = some tc2 ∧
                  (tc2.ShardingKey = "" ∨ tc2.TableCount ≤ 0 ∨
                    tc2.Algorithm = none) := by
                obtain ⟨p, hp, tc2, hptc, hinv⟩ := hbad
                rcases List.mem_cons.mp hp with hph | hpt
                · exfalso
                  rw [hph] at hptc
                  injection hptc with hte
                  rw [← hte] at hinv
                  exact tableConfigError_eq_none hce hinv
                · exact ⟨p, hpt, tc2, hptc, hinv⟩
              obtain ⟨name, tc2, e, hmem, hinv, hce2, hval⟩ :=
                validateTables_some_of_invalid rest
                  (fun p hp => hnonnil p (List.mem_cons_of_mem _ hp)) hrest
              refine ⟨name, tc2, e, List.mem_cons_of_mem _ hmem, hinv,
                hce2, ?_⟩
              simp [validateTables, hce, hval]

/-- C8 (amended): on an uninitialized manager, a config in which some
table (all stored table pointers being non-nil) is missing its
sharding key, has a non-positive table count, or has a nil algorithm
makes `Init` fail with the descriptive error of the first such table —
naming that table — but only after the connection for database index 0
has been opened: exactly one `gorm.Open` is on the trace when the
error is returned. -/
theorem init_validates_after_open (sm : ShardingManager)
    (cfg : ShardingConfig)
    (hsm : sm.initialized = false) (hn : 0 < cfg.DatabaseCount)
    (hnonnil : ∀ p ∈ cfg.TableConfigs, p.2 ≠ none)
    (hbad : ∃ p ∈ cfg.TableConfigs, ∃ tc, p.2 = some tc ∧
      (tc.ShardingKey = "" ∨ tc.TableCount ≤ 0 ∨ tc.Algorithm = none)) :
    ∃ name tc e, (name, some tc) ∈ cfg.TableConfigs ∧
      (tc.ShardingKey = "" ∨ tc.TableCount ≤ 0 ∨ tc.Algorithm = none) ∧
      tableConfigError name tc = some e ∧
      (managerInit sm cfg).2.1 =
        .error ("failed to init database " ++ goIntToString 0 ++ ": " ++ e) ∧
      (managerInit sm cfg).2.2.length = 1 := by
  obtain ⟨name, tc, e, hmem, hinv, hce, hval⟩ :=
    validateTables_some_of_invalid cfg.TableConfigs hnonnil hbad
  have hsnd : (initDatabase cfg 0).2 = .error e := by
    unfold initDatabase
    rw [hval]
  have hfst : (initDatabase cfg 0).1.length = 1 := by
    unfold initDatabase
    rw [hval]
    rfl
  obtain ⟨k, hk2⟩ : ∃ k, cfg.DatabaseCount.toNat = k + 1 :=
    ⟨cfg.DatabaseCount.toNat - 1, by omega⟩
  refine ⟨name, tc, e, hmem, hinv, hce, ?_⟩
  unfold managerInit
  rw [if_neg (by simp [hsm])]
  rw [hk2]
  simp only [managerInitGo, Nat.cast_zero]
  simp only [hsnd]
  refine ⟨trivial, ?_⟩
  simp [hfst]

theorem init_validates_after_open_witness :
    ∃ name tc e,
      (name, some tc) ∈
        ([("users", some ⟨"users", "user_id", "long", some .long, 0⟩)] :
          List (String × Option TableShardingConfig)) ∧
      (tc.ShardingKey = "" ∨ tc.TableCount ≤ 0 ∨ tc.Algorithm = none) ∧
      tableConfigError name tc = some e ∧
      (managerInit ⟨none, [], false⟩
          ⟨1, ⟨"h", 3306, "root", "pw", "", "utf8"⟩,
            [("users", some ⟨"users", "user_id", "long", some .long, 0⟩)]⟩).2.1 =
        .error ("failed to init database " ++ goIntToString 0 ++ ": " ++ e) ∧
      (managerInit ⟨none, [], false⟩
          ⟨1, ⟨"h", 3306, "root", "pw", "", "utf8"⟩,
            [("users", some ⟨"users", "user_id", "long", some .long, 0⟩)]⟩).2.2.length =
        1 :=
  init_validates_after_open ⟨none, [], false⟩
    ⟨1, ⟨"h", 3306, "root", "pw", "", "utf8"⟩,
      [("users", some ⟨"users", "user_id", "long", some .long, 0⟩)]⟩
    rfl (by norm_num) (by decide)
    ⟨("users", some ⟨"users", "user_id", "long", some .long, 0⟩), by simp,
      ⟨"users", "user_id", "long", some .long, 0⟩, rfl,
      Or.inr (Or.inl (by norm_num))⟩

/-- C9 fails as stated: on an uninitialized manager,
`MustGetShardedDB` does not fall back to the index-0 database scoped
to the unsharded table name — the fallback `GetDefaultDB` also fails
and the function returns the empty `&gorm.DB{}` with no table set. -/
theorem mustGetShardedDB_counterexample :
    mustGetShardedDB ⟨none, [], false⟩ "users" (.vInt 1) =
      (⟨none, none⟩ : ShardingSession) ∧
    (mustGetShardedDB ⟨none, [], false⟩ "users" (.vInt 1)).table ≠
      some "users" := by
  exact ⟨by decide, by decide⟩

/-- C9 (amended): `MustGetShardedDB` never surfaces an error.  On
every failure of `GetShardedDB` — whatever its cause: missing table
config, nil config, nil algorithm, non-positive table count,
unsupported key type, out-of-range index — with an initialized manager
that has at least one connection, it degrades to the index-0
connection scoped to the original unsharded table name; on an
uninitialized manager the fallback fails too and it returns the empty
`&gorm.DB{}` handle with no table set. -/
theorem mustGetShardedDB_fallback (sm : ShardingManager)
    (tableName : String) (v : GoValue) :
    (sm.initialized = false →
      mustGetShardedDB sm tableName v = ⟨none, none⟩) ∧
    (∀ e : String, sm.initialized = true → 0 < sm.databases.length →
      getShardedDB sm tableName v = .error e →
      mustGetShardedDB sm tableName v =
        ⟨sm.databases.getD 0 none, some tableName⟩) := by
  constructor
  · intro h
    unfold mustGetShardedDB getShardedDB calculateShardForTable getDBByIndex
    rw [if_pos h]
    simp only []
    rw [if_pos h]
  · intro e h1 h2 hfail
    have hinit : ¬ sm.initialized = false := by simp [h1]
    have hdbi : getDBByIndex sm 0 = .ok (sm.databases.getD 0 none) := by
      unfold getDBByIndex
      rw [if_neg hinit]
      rw [if_neg (by push_neg; omega)]
      rfl
    unfold mustGetShardedDB
    simp only [hfail]
    simp only [hdbi]

theorem mustGetShardedDB_fallback_witness :
    mustGetShardedDB
        ⟨some ⟨1, ⟨"h", 3306, "u", "p", "db", "utf8"⟩, []⟩,
          [some ⟨"dsnA"⟩], true⟩ "users" (.vInt 5) =
      ⟨([some (⟨"dsnA"⟩ : GoDB)] :
          List (Option GoDB)).getD 0 none, some "users"⟩ :=
  (mustGetShardedDB_fallback
      ⟨some ⟨1, ⟨"h", 3306, "u", "p", "db", "utf8"⟩, []⟩,
        [some ⟨"dsnA"⟩], true⟩ "users" (.vInt 5)).2
    ("failed to calculate shard: table config not found for table users"
      ++ ", each table must be configured in table_configs")
    rfl (by decide) (by rfl)

/-- C10: `GetAllDBs` hands out a fresh copy of the manager's internal
connection slice: writing any value at any index of the returned
slice leaves the slice the manager's `databases` field references
unchanged. -/
theorem getAllDBs_returns_fresh_copy (h : SliceHeap) (r : Nat)
    (hr : r < h.length) (i : Nat) (v : Option GoDB) :
    readSlice (writeSlice (getAllDBs h r).1 (getAllDBs h r).2 i v) r =
      readSlice h r := by
  unfold getAllDBs writeSlice readSlice
  rw [List.getD_eq_getElem?_getD,
    List.getElem?_set_ne (by simp; omega),
    List.getElem?_append_left hr,
    ← List.getD_eq_getElem?_getD]

theorem getAllDBs_returns_fresh_copy_witness :
    readSlice
        (writeSlice (getAllDBs [[some ⟨"dsnA"⟩]] 0).1
          (getAllDBs [[some ⟨"dsnA"⟩]] 0).2 0 none) 0 =
      readSlice [[some ⟨"dsnA"⟩]] 0 :=
  getAllDBs_returns_fresh_copy [[some ⟨"dsnA"⟩]] 0 (by decide) 0 none

end GnbSharding
